import Mathlib

/-!
Shallow embedding of the importance-evaluation pipeline of the
ParameterImportance repository (files `pimp/evaluator/fanova.py` and
`pimp/importance/importance.py`), together with theorems settling the
frozen claims about it.

Modelling conventions:
* Python floats are modelled as rationals (`Val := ℚ`); none of the
  verified claims depends on floating-point rounding, only on comparisons
  and arithmetic.
* `collections.OrderedDict` is modelled as an association list (`OD`)
  whose assignment operation (`odInsert`) replaces the value in place when
  the key is present (keeping its position) and appends otherwise —
  exactly Python's `d[k] = v` semantics.
* Python's `sorted(..., reverse=True)` (a stable sort) is modelled by the
  stable insertion sort `sortDesc`.
* The external decomposition engine (`fanova.fanova.fANOVA`) is a black
  box; its two consumed queries are fields of `FanovaEngine`.
-/

namespace Pimp

/-- Numeric values (Python floats). -/
abbrev Val := ℚ

/-- Model of `collections.OrderedDict` with string keys and numeric values,
as an association list in insertion order. -/
abbrev OD := List (String × Val)

/-- The keys of an ordered dictionary, in order. -/
def odKeys (m : OD) : List String := m.map Prod.fst

/-- Python dictionary assignment `m[k] = v`: if `k` is already a key the
value is replaced in place (the key keeps its position), otherwise the
binding is appended at the end. -/
def odInsert (k : String) (v : Val) (m : OD) : OD :=
  if k ∈ odKeys m then m.map (fun kv => if kv.1 = k then (k, v) else kv)
  else m ++ [(k, v)]

/-! ### The decomposition engine interface (external, consumed as a black box)

`quantify_importance([idx])[(idx,)]['total importance']` is a pure query per
index; `get_most_important_pairwise_marginals(params)` returns an ordered
mapping from name pairs to values, modelled as a list in the order the
engine returns. -/

structure FanovaEngine where
  single : ℕ → Val
  pairsFor : List String → List ((String × String) × Val)

/-! ### Stable descending sort

`sorted(enumerate(tmp_res), key=lambda x: x[1], reverse=True)` in
`fANOVA.run` (fanova.py line 103): stable sort of index/value pairs by
value, descending; pairs with equal values keep their original (index)
order. -/

/-- Insert `x` in front of the first element whose value is not above
`x.2`.  Folded from the right over a list this yields Python's stable
descending sort. -/
def insDesc (x : ℕ × Val) : List (ℕ × Val) → List (ℕ × Val)
  | [] => [x]
  | y :: ys => if y.2 ≤ x.2 then x :: y :: ys else y :: insDesc x ys

/-- Stable sort by value, descending (Python `sorted(..., reverse=True)`). -/
def sortDesc (l : List (ℕ × Val)) : List (ℕ × Val) := l.foldr insDesc []

/-- The sorted index list `tmp_res_sort_keys = [i[0] for i in sorted(enumerate(tmp_res), key=lambda x: x[1], reverse=True)]`
(fanova.py line 103). -/
def sortKeysDesc (tmp : List Val) : List ℕ :=
  (sortDesc ((List.range tmp.length).zip tmp)).map Prod.fst

/-! ### The fANOVA evaluator's `run()` (fanova.py lines 93-128) -/

/-- The singleton-reporting loop of `fANOVA.run` (fanova.py lines 105-111):

    count = 0
    for idx in tmp_res_sort_keys:
        if count >= self.to_evaluate:
            break
        self.evaluated_parameter_importance[params[idx].name] = tmp_res[idx]
        count += 1
-/
def insertSingles (params : List String) (tmp : List Val) :
    List ℕ → ℤ → ℕ → OD → OD
  | [], _, _, st => st
  | i :: rest, t, c, st =>
    if t ≤ (c : ℤ) then st
    else insertSingles params tmp rest t (c + 1)
      (odInsert (params.getD i "") (tmp.getD i 0) st)

/-- Modelled from the spec: `AbstractEvaluator.__init__`
(`pimp/evaluator/base_evaluator.py`, a file of this repository that is not
under src/) stores the requested report size on the evaluator.  Section
4.2 of the spec gives its contract: the orchestrator passes the "number of
parameters to report (`to_evaluate`; `-1` means 'all')", and the
truncation law of section 8 requires that a negative request reports all
hyperparameters; so a negative `to_evaluate` is stored as the number of
hyperparameters, a non-negative one as given. -/
def storedToEvaluate (toEvaluate : ℤ) (numParams : ℕ) : ℤ :=
  if toEvaluate < 0 then (numParams : ℤ) else toEvaluate

/-- The per-index engine queries of `fANOVA.run` (fanova.py lines 97-101):
`tmp_res[idx] = quantify_importance([idx])[(idx,)]['total importance']`. -/
def fanovaTmp (params : List String) (engine : FanovaEngine) : List Val :=
  (List.range params.length).map engine.single

/-- The list `sorted(enumerate(tmp_res), key=lambda x: x[1], reverse=True)` on the
queried importances. -/
def fanovaSorted (params : List String) (engine : FanovaEngine) : List (ℕ × Val) :=
  sortDesc ((List.range (fanovaTmp params engine).length).zip (fanovaTmp params engine))

/-- The state of `evaluated_parameter_importance` after the singleton loop
of a run started on an empty mapping. -/
def fanovaSingles (params : List String) (engine : FanovaEngine) (toEvaluate : ℤ) : OD :=
  insertSingles params (fanovaTmp params engine)
    (sortKeysDesc (fanovaTmp params engine)) toEvaluate 0 []

/-- Python's `str([a, b])` used as the pair key in
`self.evaluated_parameter_importance[str([a, b])] = pairs[pair]`
(fanova.py line 120). -/
def pyQuote (s : String) : String := "\x27" ++ s ++ "\x27"

/-- Python `str([a, b])` for two strings: a bracketed, comma-separated, quoted list. -/
def pairKey (a b : String) : String := "[" ++ pyQuote a ++ ", " ++ pyQuote b ++ "]"

/-- The result dictionary of `fANOVA.run`
(`{'imp': ..., 'order': list(keys)}`, fanova.py lines 126-127). -/
structure RunResult where
  imp : OD
  order : List String
deriving DecidableEq

/-- The method `fANOVA.run` (fanova.py lines 93-128), success path, as a function of
the evaluator's `evaluated_parameter_importance` state `st`:
query the engine for every singleton, stable-sort descending, report the
top `to_evaluate` into the mapping, query the pairwise marginals of the
first `n_pairs` keys, append them, and return the result together with
the final mapping state. -/
def fanovaRun (params : List String) (engine : FanovaEngine)
    (toEvaluate : ℤ) (nPairs : ℕ) (st : OD) : RunResult × OD :=
  let tmp := fanovaTmp params engine
  let keys := sortKeysDesc tmp
  let st1 := insertSingles params tmp keys toEvaluate 0 st
  let prs := engine.pairsFor ((odKeys st1).take nPairs)
  let st2 := prs.foldl (fun acc pv => odInsert (pairKey pv.1.1 pv.1.2) pv.2 acc) st1
  ({ imp := st2, order := odKeys st2 }, st2)

/-- The ranking relation realised by the reported singleton order:
strictly larger importance first, ties broken by the original
hyperparameter index (stability of Python's sort). -/
def rankRel (x y : ℕ × Val) : Prop :=
  y.2 < x.2 ∨ (x.2 = y.2 ∧ x.1 < y.1)

instance : DecidableRel rankRel := fun x y => by
  unfold rankRel; infer_instance

/-! ### The failure path of `run()` (fanova.py lines 94, 129-132)

The whole body of `run` sits in a `try`.  The decomposition engine's
queries can raise `ZeroDivisionError` (zero total variance); the handler
dumps `[self.X, self.y, self.cs]` to the fixed filename
`'fANOVA_crash_data.pkl'` and then raises `Exception(...)` with a fixed
message.  Engine queries that may raise are modelled in the `Except Unit`
monad (`Unit` standing for `ZeroDivisionError`), and the observable
behaviour of `run` is a trace of events (file writes and the raised
error, in program order). -/

/-- Python exception values raised by the two embedded modules, identified
by their class and message. -/
inductive PyError where
  | exception (msg : String)
  | valueError (msg : String)
  | fileNotFound (msg : String)
deriving DecidableEq

/-- The data pickled on a degenerate-variance crash:
`pickle.dump([self.X, self.y, self.cs], fh)` (fanova.py line 131). -/
structure CrashDump where
  X : List (List Val)
  y : List Val
  cs : String
deriving DecidableEq

/-- An observable side effect of `fANOVA.run`, in program order. -/
inductive Event where
  | dumpFile (name : String) (payload : CrashDump)
  | raised (e : PyError)
deriving DecidableEq

/-- The message of the exception raised on a degenerate decomposition
(fanova.py line 132). -/
def degenerateMsg : String :=
  "fANOVA crashed with a \"float division by zero\" error. Dumping the data to disk"

/-- The error surfaced on zero total variance — the spec's
`DegenerateVarianceError`.  In the source it is an `Exception` carrying
the fixed message of fanova.py line 132, which no other raise site of the
embedded modules produces. -/
def DegenerateVarianceError : PyError := PyError.exception degenerateMsg

/-- The engine interface with fallible queries (`ZeroDivisionError`
modelled as `Except.error ()`). -/
structure FanovaEngineE where
  single : ℕ → Except Unit Val
  pairsFor : List String → Except Unit (List ((String × String) × Val))

/-- The body of the `try` block of `fANOVA.run` (fanova.py lines 94-128)
with fallible engine queries, in query order: one singleton query per
hyperparameter index, then the single pairwise query. -/
def fanovaQueries (params : List String) (engine : FanovaEngineE)
    (toEvaluate : ℤ) (nPairs : ℕ) (st : OD) : Except Unit (RunResult × OD) := do
  let tmp ← (List.range params.length).mapM engine.single
  let keys := sortKeysDesc tmp
  let st1 := insertSingles params tmp keys toEvaluate 0 st
  let prs ← engine.pairsFor ((odKeys st1).take nPairs)
  let st2 := prs.foldl (fun acc pv => odInsert (pairKey pv.1.1 pv.1.2) pv.2 acc) st1
  return ({ imp := st2, order := odKeys st2 }, st2)

/-- The method `fANOVA.run` with its exception handler (fanova.py lines 93-132):
on success no side effect and the result; on `ZeroDivisionError` the
pickle dump to the fixed filename followed by the raise, in that order. -/
def fanovaRunE (params : List String) (engine : FanovaEngineE)
    (toEvaluate : ℤ) (nPairs : ℕ) (st : OD)
    (X : List (List Val)) (y : List Val) (cs : String) :
    List Event × Option (RunResult × OD) :=
  match fanovaQueries params engine toEvaluate nPairs st with
  | .ok r => ([], some r)
  | .error _ =>
    ([Event.dumpFile "fANOVA_crash_data.pkl" ⟨X, y, cs⟩,
      Event.raised DegenerateVarianceError], none)

/-! ### Preprocessing (fanova.py lines 43-69, `fANOVA._preprocess`)

The loop body is

    config = impute_inactive_values(config).get_array()
    X_prime.append(config)
    X_non_hyper.append(config)
    for idx, param in enumerate(self.cs.get_hyperparameters()):
        if not isinstance(param, CategoricalHyperparameter):
            X_non_hyper[-1][idx] = param._transform(X_non_hyper[-1][idx])

Both Python lists receive a reference to the SAME numpy array `config`;
the inner loop then mutates that array in place.  The embedding makes the
sharing explicit with a store of arrays addressed by position: both lists
hold addresses, and the in-place update goes through the store. -/

/-- A hyperparameter as the preprocessing step sees it: its kind and its
`_transform` map (external `ConfigSpace` data, consumed as a black box). -/
inductive HpKind where
  | categorical
  | float
  | integer
deriving DecidableEq

structure Hyperparam where
  name : String
  kind : HpKind
  transf : Val → Val

/-- The net effect of the inner index loop on one array: apply
`param._transform` at every non-categorical hyperparameter's index,
leave categorical indices untouched. -/
def transformRow (cs : List Hyperparam) (row : List Val) : List Val :=
  (List.range cs.length).foldl
    (fun r idx =>
      match (cs.getD idx ⟨"", HpKind.categorical, id⟩).kind with
      | HpKind.categorical => r
      | _ => r.set idx ((cs.getD idx ⟨"", HpKind.categorical, id⟩).transf (r.getD idx 0)))
    row

/-- The mutable state of the preprocessing loop: the store of numpy
arrays, and the two Python lists holding store addresses. -/
structure PreState where
  store : List (List Val)
  xPrime : List ℕ
  xNonHyper : List ℕ

/-- The preprocessing loop over all configurations of the run history
(each already encoded by `impute_inactive_values(config).get_array()`,
which is external `ConfigSpace` code): one fresh array per configuration,
appended by reference to both lists, then transformed in place. -/
def preprocessLoop (cs : List Hyperparam) (configs : List (List Val)) : PreState :=
  configs.foldl
    (fun s cfg =>
      let addr := s.store.length
      let store1 := s.store ++ [cfg]
      let store2 := store1.set addr (transformRow cs (store1.getD addr []))
      ⟨store2, s.xPrime ++ [addr], s.xNonHyper ++ [addr]⟩)
    ⟨[], [], []⟩

/-- The result of `fANOVA._preprocess`: the two materialised matrices
(`np.array(...)` copies the rows the addresses point to) and
`y_prime = model.predict_marginalized_over_instances(X_prime)[0]`. -/
structure PreprocResult where
  Xnh : List (List Val)
  Xp : List (List Val)
  yPrime : List Val
deriving DecidableEq

/-- The method `fANOVA._preprocess` (fanova.py lines 43-69), with the surrogate's
marginalised prediction consumed as a black-box function. -/
def preprocess (cs : List Hyperparam) (configs : List (List Val))
    (predict : List (List Val) → List Val) : PreprocResult :=
  let s := preprocessLoop cs configs
  let xp := s.xPrime.map (fun a => s.store.getD a [])
  let xnh := s.xNonHyper.map (fun a => s.store.getD a [])
  { Xnh := xnh, Xp := xp, yPrime := predict xp }

/-! ### Downsampling (importance.py lines 72-79, `Importance.__init__`)

    if 0 < max_sample_size < len(self.X):
        idx = list(range(len(self.X)))
        np.random.shuffle(idx)
        idx = idx[:max_sample_size]
        self.X = self.X[idx]
        self.y = self.y[idx]
        self.model.train(self.X, self.y)

`np.random.shuffle` permutes through numpy's MODULE-GLOBAL generator; the
orchestrator's own seeded generator `self.rng = np.random.RandomState(seed)`
(line 60) is not consulted here.  The global generator is modelled as the
permutation it would apply to `list(range(n))`. -/

/-- The state of numpy's module-global random generator, abstracted to
the permutation `np.random.shuffle` applies to `list(range(n))`. -/
structure GlobalNpRandom where
  shuffleOf : ℕ → List ℕ

/-- The downsampling block of `Importance.__init__`.  `seed` is the
constructor's seed argument; the body never consults it, because the
source shuffles via the module-global generator. -/
def downsample (g : GlobalNpRandom) (seed : ℕ)
    (X : List (List Val)) (y : List Val) (maxSampleSize : ℤ) :
    List (List Val) × List Val :=
  if 0 < maxSampleSize ∧ maxSampleSize < (X.length : ℤ) then
    let idx := (g.shuffleOf X.length).take maxSampleSize.toNat
    (idx.map (fun i => X.getD i []), idx.map (fun i => y.getD i 0))
  else (X, y)

/-! ### History-to-matrix conversion (importance.py lines 293-364,
`Importance._convert_data`)

The branch on `self.scenario.run_obj` selects the transformer and its
arguments.  The transformer classes (`RunHistory2EPM4LogCost`,
`RunHistory2EPM4Cost`) are imported from `pimp.utils`, a file of this
repository that is not under src/; only the arguments the branch passes
are source-visible here. -/

/-- A run status as recorded in the run history. -/
inductive RunStatus where
  | success
  | timeout
  | capped
  | crashed
deriving DecidableEq

/-- The arguments `_convert_data` passes to the history-to-matrix
transformer (plus which transformer class it picks, as `logCost`). -/
structure RH2EPMArgs where
  logCost : Bool
  successStates : Option (List RunStatus)
  imputeCensoredData : Bool
  imputeState : Option (List RunStatus)
  hasImputor : Bool
deriving DecidableEq

/-- The transformer selection of `_convert_data` (importance.py lines
317-353): the runtime branch uses the log-cost transformer with success
states `[SUCCESS]`, impute states `[TIMEOUT, CAPPED]` and an imputor; any
other objective uses the plain-cost transformer with `success_states=None`,
`impute_state=None` and no imputor; both branches forward the orchestrator's
`impute_censored` flag unchanged. -/
def convertDataArgs (runObj : String) (impute : Bool) : RH2EPMArgs :=
  if runObj = "runtime" then
    { logCost := true
      successStates := some [RunStatus.success]
      imputeCensoredData := impute
      imputeState := some [RunStatus.timeout, RunStatus.capped]
      hasImputor := true }
  else
    { logCost := false
      successStates := none
      imputeCensoredData := impute
      imputeState := none
      hasImputor := false }

/-- One run-history record as the transformer sees it. -/
structure RHRecord where
  cost : Val
  status : RunStatus
deriving DecidableEq

/-- Modelled from the spec: the history-to-matrix transformer
(`RunHistory2EPM...` re-exported through `pimp/utils`, a file of this
repository that is not under src/).  Per section 4.1 it applies
censored-data imputation to a record exactly when imputation is enabled
and the record's status lies in the impute-state list (an absent list
meaning no states); this definition returns the records it would
impute. -/
def imputedRecords (args : RH2EPMArgs) (records : List RHRecord) : List RHRecord :=
  if args.imputeCensoredData then
    records.filter (fun r => r.status ∈ args.imputeState.getD [])
  else []

/-! ### `evaluate_scenario` (importance.py lines 366-409) -/

/-- The four methods run by `evaluate_scenario('all', ...)`. -/
inductive EvalMethod where
  | ablation
  | fanova
  | forwardSelection
  | incneighbor
deriving DecidableEq

/-- The fixed method multiset of the `'all'` mode, in the default order
(importance.py line 386). -/
def allMethods : List EvalMethod :=
  [EvalMethod.ablation, EvalMethod.fanova, EvalMethod.forwardSelection,
   EvalMethod.incneighbor]

/-- The order selection of `evaluate_scenario` (importance.py lines
386-396): `sort_by` values 1-5 pick the listed orders, every other value
(including the default 0) keeps the default order. -/
def methodsOrder (sortBy : ℤ) : List EvalMethod :=
  if sortBy = 1 then
    [EvalMethod.ablation, EvalMethod.forwardSelection, EvalMethod.fanova,
     EvalMethod.incneighbor]
  else if sortBy = 2 then
    [EvalMethod.fanova, EvalMethod.forwardSelection, EvalMethod.ablation,
     EvalMethod.incneighbor]
  else if sortBy = 3 then
    [EvalMethod.fanova, EvalMethod.ablation, EvalMethod.forwardSelection,
     EvalMethod.incneighbor]
  else if sortBy = 4 then
    [EvalMethod.forwardSelection, EvalMethod.ablation, EvalMethod.fanova,
     EvalMethod.incneighbor]
  else if sortBy = 5 then
    [EvalMethod.forwardSelection, EvalMethod.fanova, EvalMethod.ablation,
     EvalMethod.incneighbor]
  else allMethods

/-- The `'all'` branch of `evaluate_scenario` (importance.py lines
397-405): for each method in the selected order, construct and run its
evaluator (`self.evaluator = method; dict_[method] = self.evaluator.run();
evaluators.append(self.evaluator)`).  The constructed evaluator instance
is identified by its method tag; `runOf` is the mapping each evaluator's
`run()` returns. -/
def evaluateScenarioAll (sortBy : ℤ) (runOf : EvalMethod → OD) :
    List (EvalMethod × OD) × List EvalMethod :=
  (methodsOrder sortBy).foldl
    (fun acc m => (acc.1 ++ [(m, runOf m)], acc.2 ++ [m]))
    ([], [])

/-! ### `table_for_comparison` (importance.py lines 427-512)

Only the body-building loop (lines 443-458) touches evaluator data; the
rest formats and prints.  The body is an ordered mapping from parameter
name to a row of cells, one cell per evaluator column; `'-'` cells are
`none`.  Cell values are Python floats (immutable), so `body[p][idx] *= 100`
rebinds the list slot and cannot write through to the evaluator's
mapping. -/

/-- An evaluator as `table_for_comparison` sees it: its `name` and its
`evaluated_parameter_importance` mapping. -/
structure Evaluator where
  name : String
  evaluated_parameter_importance : OD
deriving DecidableEq

/-- The comparison-table body: parameter name to one optional value per
evaluator column, in first-seen order. -/
abbrev Body := List (String × List (Option Val))

/-- Python `body[p] = ['-']*len(evaluators); body[p][idx] = v` when `p` is new,
`body[p][idx] = v` when present (importance.py lines 449-454). -/
def bodySet (b : Body) (p : String) (n idx : ℕ) (v : Val) : Body :=
  if p ∈ b.map Prod.fst then
    b.map (fun row => if row.1 = p then (p, row.2.set idx (some v)) else row)
  else b ++ [(p, (List.replicate n (none : Option Val)).set idx (some v))]

/-- Python `if body[p][idx] != '-': body[p][idx] *= 100` (importance.py lines
456-457). -/
def bodyScale (b : Body) (p : String) (idx : ℕ) : Body :=
  b.map (fun row =>
    if row.1 = p then
      (p, row.2.set idx ((row.2.getD idx none).map (fun v => v * 100)))
    else row)

/-- The inner loop over one evaluator's reported parameters
(importance.py lines 447-458): skip the ablation bookkeeping keys,
write the value into this evaluator's column, and scale Ablation/fANOVA
cells by 100. -/
def processEval (n : ℕ) (b : Body) (idx : ℕ) (e : Evaluator) : Body :=
  e.evaluated_parameter_importance.foldl
    (fun acc pv =>
      if pv.1 = "-source-" ∨ pv.1 = "-target-" then acc
      else
        let acc1 := bodySet acc pv.1 n idx pv.2
        if e.name = "Ablation" ∨ e.name = "fANOVA" then bodyScale acc1 pv.1 idx
        else acc1)
    b

/-- The body-building pass of `table_for_comparison` (importance.py lines
443-461), threading the evaluator list through as read-only state and
returning it alongside the built table body. -/
def tableForComparison (evaluators : List Evaluator) : Body × List Evaluator :=
  (evaluators.enum.foldl
    (fun acc ei => (processEval evaluators.length acc.1 ei.1 ei.2, acc.2 ++ [ei.2]))
    ([], []))

/-! ### Concrete instances used to evaluate the definitions -/

/-- A concrete decomposition engine: singleton importances 3, 2, 1, ...
(descending in the index), and a pairwise query answering with the first
two requested names. -/
def engW : FanovaEngine where
  single := fun i => if i = 0 then 3 else if i = 1 then 2 else 1
  pairsFor := fun ps =>
    match ps with
    | a :: b :: _ => [((a, b), 7)]
    | _ => []

/-- A concrete engine whose every query raises `ZeroDivisionError`
(a degenerate decomposition). -/
def engCrash : FanovaEngineE where
  single := fun _ => Except.error ()
  pairsFor := fun _ => Except.error ()

/-- A one-hyperparameter configuration space whose (non-categorical)
hyperparameter has a non-identity transform (it moves every encoded value
in the unit interval, in particular `0 ↦ 5`). -/
def csW : List Hyperparam := [⟨"w", HpKind.float, fun v => if v ≤ 1 then 5 else v⟩]

/-- A global-generator state whose shuffle is the identity permutation. -/
def gIdent : GlobalNpRandom := ⟨fun n => List.range n⟩

/-- A global-generator state whose shuffle reverses the list. -/
def gRev : GlobalNpRandom := ⟨fun n => (List.range n).reverse⟩

/-- A concrete fANOVA evaluator result for the comparison table. -/
def fanovaEvalW : Evaluator := ⟨"fANOVA", [("a", 1 / 2)]⟩

/-! ## Lemmas about the ordered-dictionary model -/

theorem odKeys_append (m1 m2 : OD) : odKeys (m1 ++ m2) = odKeys m1 ++ odKeys m2 :=
  List.map_append _ _ _

theorem odInsert_of_not_mem {k : String} {m : OD} (v : Val) (h : k ∉ odKeys m) :
    odInsert k v m = m ++ [(k, v)] := by
  unfold odInsert
  exact if_neg h

theorem odKeys_odInsert_of_mem {k : String} {m : OD} (v : Val) (h : k ∈ odKeys m) :
    odKeys (odInsert k v m) = odKeys m := by
  unfold odInsert
  rw [if_pos h]
  unfold odKeys
  rw [List.map_map]
  refine List.map_congr_left fun a _ => ?_
  by_cases ha : a.1 = k <;> simp [ha]

theorem length_le_odInsert (k : String) (v : Val) (m : OD) :
    m.length ≤ (odInsert k v m).length := by
  unfold odInsert
  split
  · rw [List.length_map]
  · rw [List.length_append]
    omega

theorem odInsert_nodupKeys {k : String} {v : Val} {m : OD} (h : (odKeys m).Nodup) :
    (odKeys (odInsert k v m)).Nodup := by
  by_cases hk : k ∈ odKeys m
  · rw [odKeys_odInsert_of_mem v hk]
    exact h
  · rw [odInsert_of_not_mem v hk, odKeys_append]
    simp only [odKeys, List.map_cons, List.map_nil]
    exact List.Nodup.append h (List.nodup_singleton k) (by
      intro a ha hb
      rw [List.mem_singleton] at hb
      exact hk (hb ▸ ha))

theorem odInsert_mem_eq {k : String} {v : Val} {m : OD}
    (hw : (odKeys m).Nodup) (h : (k, v) ∈ m) : odInsert k v m = m := by
  have hk : k ∈ odKeys m := List.mem_map_of_mem Prod.fst h
  unfold odInsert
  rw [if_pos hk]
  conv_rhs => rw [← List.map_id m]
  refine List.map_congr_left fun a ha => ?_
  by_cases hak : a.1 = k
  · have := List.inj_on_of_nodup_map (f := Prod.fst) hw ha h (by rw [hak])
    rw [this]
    simp
  · simp [hak]

theorem odInsert_take {k : String} {m : OD} (v : Val) {j : ℕ}
    (hj : j ≤ m.length) (h : k ∉ odKeys (m.take j)) :
    (odInsert k v m).take j = m.take j := by
  unfold odInsert
  by_cases hk : k ∈ odKeys m
  · rw [if_pos hk, ← List.map_take]
    conv_rhs => rw [← List.map_id (m.take j)]
    refine List.map_congr_left fun a ha => ?_
    have hak : a.1 ≠ k := fun hh => h (hh ▸ List.mem_map_of_mem Prod.fst ha)
    simp [hak]
  · rw [if_neg hk, List.take_append_of_le_length hj]

theorem foldl_odInsert_fresh :
    ∀ (l : List (String × Val)) (st : OD),
      (∀ p ∈ l, p.1 ∉ odKeys st) → (l.map Prod.fst).Nodup →
      l.foldl (fun acc p => odInsert p.1 p.2 acc) st = st ++ l
  | [], st, _, _ => by simp
  | a :: t, st, hfresh, hnd => by
    simp only [List.foldl_cons]
    rw [odInsert_of_not_mem a.2 (hfresh a (List.mem_cons_self a t))]
    simp only [List.map_cons, List.nodup_cons] at hnd
    rw [foldl_odInsert_fresh t (st ++ [(a.1, a.2)]) ?_ hnd.2]
    · simp
    · intro p hp
      rw [odKeys_append]
      simp only [odKeys, List.map_cons, List.map_nil, List.mem_append,
        List.mem_singleton]
      push_neg
      refine ⟨hfresh p (List.mem_cons_of_mem a hp), ?_⟩
      intro hpa
      exact hnd.1 (hpa ▸ List.mem_map_of_mem Prod.fst hp)

theorem foldl_odInsert_mem :
    ∀ (l : List (String × Val)) (st : OD),
      (odKeys st).Nodup → (∀ p ∈ l, p ∈ st) →
      l.foldl (fun acc p => odInsert p.1 p.2 acc) st = st
  | [], _, _, _ => rfl
  | a :: t, st, hw, hmem => by
    simp only [List.foldl_cons]
    have ha : odInsert a.1 a.2 st = st := odInsert_mem_eq hw (hmem a (List.mem_cons_self a t))
    rw [ha]
    exact foldl_odInsert_mem t st hw (fun p hp => hmem p (List.mem_cons_of_mem a hp))

theorem foldl_odInsert_take {m0 : ℕ} :
    ∀ (l : List (String × Val)) (st : OD), m0 ≤ st.length →
      (∀ p ∈ l, p.1 ∉ odKeys (st.take m0)) →
      (l.foldl (fun acc p => odInsert p.1 p.2 acc) st).take m0 = st.take m0
  | [], _, _, _ => rfl
  | a :: t, st, hm, hfresh => by
    simp only [List.foldl_cons]
    have h1 : (odInsert a.1 a.2 st).take m0 = st.take m0 :=
      odInsert_take a.2 hm (hfresh a (List.mem_cons_self a t))
    rw [foldl_odInsert_take t (odInsert a.1 a.2 st)
        (le_trans hm (length_le_odInsert a.1 a.2 st)) ?_, h1]
    intro p hp
    rw [h1]
    exact hfresh p (List.mem_cons_of_mem a hp)

theorem foldl_odInsert_nodupKeys :
    ∀ (l : List (String × Val)) (st : OD), (odKeys st).Nodup →
      (odKeys (l.foldl (fun acc p => odInsert p.1 p.2 acc) st)).Nodup
  | [], _, hw => hw
  | a :: t, st, hw => by
    simp only [List.foldl_cons]
    exact foldl_odInsert_nodupKeys t _ (odInsert_nodupKeys hw)

/-! ## Lemmas about the stable descending sort -/

theorem insDesc_perm (x : ℕ × Val) : ∀ l : List (ℕ × Val), (insDesc x l).Perm (x :: l)
  | [] => List.Perm.refl _
  | y :: ys => by
    unfold insDesc
    split
    · exact List.Perm.refl _
    · exact List.Perm.trans ((insDesc_perm x ys).cons y) (List.Perm.swap x y ys)

theorem sortDesc_perm : ∀ l : List (ℕ × Val), (sortDesc l).Perm l
  | [] => List.Perm.refl _
  | x :: t => by
    unfold sortDesc
    simp only [List.foldr_cons]
    exact List.Perm.trans (insDesc_perm x (sortDesc t)) ((sortDesc_perm t).cons x)

theorem mem_insDesc {w x : ℕ × Val} {l : List (ℕ × Val)} :
    w ∈ insDesc x l ↔ w = x ∨ w ∈ l := by
  rw [(insDesc_perm x l).mem_iff, List.mem_cons]

theorem insDesc_pairwise (x : ℕ × Val) :
    ∀ l : List (ℕ × Val), l.Pairwise rankRel → (∀ y ∈ l, x.1 < y.1) →
      (insDesc x l).Pairwise rankRel
  | [], _, _ => List.pairwise_singleton _ _
  | y :: ys, hl, hx => by
    rw [List.pairwise_cons] at hl
    obtain ⟨hy, hys⟩ := hl
    unfold insDesc
    by_cases hc : y.2 ≤ x.2
    · rw [if_pos hc, List.pairwise_cons]
      refine ⟨?_, List.pairwise_cons.mpr ⟨hy, hys⟩⟩
      intro z hz
      rcases List.mem_cons.mp hz with rfl | hz
      · rcases lt_or_eq_of_le hc with hlt | heq
        · exact Or.inl hlt
        · exact Or.inr ⟨heq.symm, hx z (List.mem_cons_self z ys)⟩
      · have hz2 : z.2 ≤ x.2 := by
          rcases hy z hz with hlt | heq
          · exact le_trans (le_of_lt hlt) hc
          · exact le_trans (le_of_eq heq.1.symm) hc
        rcases lt_or_eq_of_le hz2 with hlt | heq
        · exact Or.inl hlt
        · exact Or.inr ⟨heq.symm, hx z (List.mem_cons_of_mem y hz)⟩
    · rw [if_neg hc, List.pairwise_cons]
      push_neg at hc
      refine ⟨?_, insDesc_pairwise x ys hys (fun z hz => hx z (List.mem_cons_of_mem y hz))⟩
      intro z hz
      rcases mem_insDesc.mp hz with rfl | hz
      · exact Or.inl hc
      · exact hy z hz

theorem sortDesc_pairwise :
    ∀ l : List (ℕ × Val), l.Pairwise (fun a b => a.1 < b.1) →
      (sortDesc l).Pairwise rankRel
  | [], _ => List.Pairwise.nil
  | x :: t, h => by
    rw [List.pairwise_cons] at h
    unfold sortDesc
    simp only [List.foldr_cons]
    refine insDesc_pairwise x (sortDesc t) (sortDesc_pairwise t h.2) ?_
    intro y hy
    exact h.1 y ((sortDesc_perm t).mem_iff.mp hy)

theorem zip_range_pairwise (tmp : List Val) :
    (((List.range tmp.length).zip tmp)).Pairwise (fun a b => a.1 < b.1) := by
  have hmap : List.map Prod.fst ((List.range tmp.length).zip tmp) = List.range tmp.length :=
    List.map_fst_zip _ _ (by rw [List.length_range])
  have := List.pairwise_lt_range tmp.length
  rw [← hmap, List.pairwise_map] at this
  exact this

theorem mem_zip_range {tmp : List Val} {p : ℕ × Val}
    (hp : p ∈ (List.range tmp.length).zip tmp) :
    p.1 < tmp.length ∧ tmp.getD p.1 0 = p.2 := by
  obtain ⟨n, hn, hEq⟩ := List.getElem_of_mem hp
  have hn' : n < tmp.length := by
    rw [List.length_zip, List.length_range, min_self] at hn
    exact hn
  rw [List.getElem_zip, List.getElem_range] at hEq
  rw [← hEq]
  exact ⟨hn', List.getD_eq_getElem tmp 0 hn'⟩

theorem sortKeysDesc_perm (tmp : List Val) :
    (sortKeysDesc tmp).Perm (List.range tmp.length) := by
  unfold sortKeysDesc
  have h1 := (sortDesc_perm ((List.range tmp.length).zip tmp)).map Prod.fst
  rw [List.map_fst_zip _ _ (by rw [List.length_range])] at h1
  exact h1

theorem sortKeysDesc_nodup (tmp : List Val) : (sortKeysDesc tmp).Nodup :=
  (sortKeysDesc_perm tmp).nodup_iff.mpr (List.nodup_range _)

theorem sortKeysDesc_lt {tmp : List Val} {i : ℕ} (h : i ∈ sortKeysDesc tmp) :
    i < tmp.length :=
  List.mem_range.mp ((sortKeysDesc_perm tmp).mem_iff.mp h)

theorem sortKeysDesc_length (tmp : List Val) :
    (sortKeysDesc tmp).length = tmp.length := by
  rw [(sortKeysDesc_perm tmp).length_eq, List.length_range]

/-! ## Lemmas about the singleton-reporting loop -/

theorem insertSingles_eq_foldl (params : List String) (tmp : List Val) :
    ∀ (ks : List ℕ) (t : ℤ) (c : ℕ) (st : OD),
      insertSingles params tmp ks t c st =
        ((ks.take (t - c).toNat).map
            (fun i => (params.getD i "", tmp.getD i 0))).foldl
          (fun acc p => odInsert p.1 p.2 acc) st
  | [], t, c, st => by simp [insertSingles]
  | i :: rest, t, c, st => by
    by_cases h : t ≤ (c : ℤ)
    · have h0 : (t - (c : ℤ)).toNat = 0 := by omega
      simp [insertSingles, if_pos h, h0]
    · have h2 : (t - (c : ℤ)).toNat = (t - ((c + 1 : ℕ) : ℤ)).toNat + 1 := by
        push_cast
        omega
      rw [insertSingles, if_neg h, h2, List.take_succ_cons, List.map_cons,
        List.foldl_cons]
      exact insertSingles_eq_foldl params tmp rest t (c + 1) _

theorem fanovaTmp_length (params : List String) (engine : FanovaEngine) :
    (fanovaTmp params engine).length = params.length := by
  rw [fanovaTmp, List.length_map, List.length_range]

/-- The names picked by any sublist of the sorted index list are distinct
hyperparameter names. -/
theorem names_nodup {params : List String} (hnd : params.Nodup)
    {is : List ℕ} (hisnd : is.Nodup) (hlt : ∀ i ∈ is, i < params.length) :
    (is.map (fun i => params.getD i "")).Nodup := by
  refine List.Nodup.map_on ?_ hisnd
  intro i hi j hj hij
  have hi' := hlt i hi
  have hj' := hlt j hj
  rw [List.getD_eq_getElem _ _ hi', List.getD_eq_getElem _ _ hj'] at hij
  exact (hnd.getElem_inj_iff).mp hij

/-- The mapping after the singleton loop of a run started on the empty
mapping: the first `to_evaluate` sorted indices, each contributing the
binding (hyperparameter name, total importance), in ranked order. -/
theorem fanovaSingles_eq (params : List String) (engine : FanovaEngine)
    (toEval : ℤ) (hnd : params.Nodup) :
    fanovaSingles params engine toEval =
      ((sortKeysDesc (fanovaTmp params engine)).take toEval.toNat).map
        (fun i => (params.getD i "", (fanovaTmp params engine).getD i 0)) := by
  unfold fanovaSingles
  rw [insertSingles_eq_foldl]
  have hz : ((toEval : ℤ) - ((0 : ℕ) : ℤ)).toNat = toEval.toNat := by
    norm_num
  rw [hz]
  rw [foldl_odInsert_fresh _ _ (by intro p hp; simp [odKeys]) ?_]
  · rw [List.nil_append]
  · rw [List.map_map]
    have : (Prod.fst ∘ fun i => (params.getD i "", (fanovaTmp params engine).getD i 0)) =
        fun i => params.getD i "" := rfl
    rw [this]
    refine names_nodup hnd
      (List.Nodup.sublist (List.take_sublist _ _) (sortKeysDesc_nodup _)) ?_
    intro i hi
    have := sortKeysDesc_lt (List.take_subset _ _ hi)
    rwa [fanovaTmp_length] at this

theorem fanovaSingles_keys (params : List String) (engine : FanovaEngine)
    (toEval : ℤ) (hnd : params.Nodup) :
    odKeys (fanovaSingles params engine toEval) =
      ((sortKeysDesc (fanovaTmp params engine)).take toEval.toNat).map
        (fun i => params.getD i "") := by
  rw [fanovaSingles_eq params engine toEval hnd]
  unfold odKeys
  rw [List.map_map]
  rfl

theorem fanovaSingles_keys_nodup (params : List String) (engine : FanovaEngine)
    (toEval : ℤ) (hnd : params.Nodup) :
    (odKeys (fanovaSingles params engine toEval)).Nodup := by
  rw [fanovaSingles_keys params engine toEval hnd]
  refine names_nodup hnd
    (List.Nodup.sublist (List.take_sublist _ _) (sortKeysDesc_nodup _)) ?_
  intro i hi
  have := sortKeysDesc_lt (List.take_subset _ _ hi)
  rwa [fanovaTmp_length] at this

theorem fanovaSingles_keys_subset {params : List String} {engine : FanovaEngine}
    {toEval : ℤ} (hnd : params.Nodup) {q : String}
    (hq : q ∈ odKeys (fanovaSingles params engine toEval)) : q ∈ params := by
  rw [fanovaSingles_keys params engine toEval hnd] at hq
  obtain ⟨i, hi, rfl⟩ := List.mem_map.mp hq
  have hlt : i < params.length := by
    have := sortKeysDesc_lt (List.take_subset _ _ hi)
    rwa [fanovaTmp_length] at this
  rw [List.getD_eq_getElem _ _ hlt]
  exact List.getElem_mem _

/-- The pair-appending loop of `run()` as a fold over prepared bindings. -/
theorem foldl_odInsert_entries (prs : List ((String × String) × Val)) (st : OD) :
    prs.foldl (fun acc pv => odInsert (pairKey pv.1.1 pv.1.2) pv.2 acc) st =
      (prs.map (fun pv => (pairKey pv.1.1 pv.1.2, pv.2))).foldl
        (fun acc p => odInsert p.1 p.2 acc) st := by
  induction prs generalizing st with
  | nil => rfl
  | cons a t ih => simp only [List.foldl_cons, List.map_cons, ih]

/-! ## Claim theorems -/

/-- Claim C1: with the report size stored by the evaluator constructor
(spec contract: a negative request means "all"), the singleton phase of
the fANOVA evaluator's `run()` inserts exactly `min k n` singleton entries
into the Importance Mapping when `k ≥ 0`, and all `n` entries for every
`k < 0` (in particular for `k = -1`), `n` being the number of
hyperparameters. -/
theorem fanova_truncation_law (params : List String) (engine : FanovaEngine)
    (k : ℤ) (hnd : params.Nodup) :
    (fanovaSingles params engine (storedToEvaluate k params.length)).length =
      if k < 0 then params.length else min k.toNat params.length := by
  rw [fanovaSingles_eq params engine _ hnd, List.length_map, List.length_take,
    sortKeysDesc_length, fanovaTmp_length]
  unfold storedToEvaluate
  by_cases hk : k < 0
  · rw [if_pos hk, if_pos hk, Int.toNat_natCast]
    exact min_self _
  · rw [if_neg hk, if_neg hk]

/-- Witness for C1 at a concrete input: three hyperparameters, `k = 2`. -/
theorem fanova_truncation_law_witness :
    ["a", "b", "c"].Nodup ∧
    (fanovaSingles ["a", "b", "c"] engW
        (storedToEvaluate 2 ["a", "b", "c"].length)).length =
      if (2 : ℤ) < 0 then ["a", "b", "c"].length
      else min (2 : ℤ).toNat ["a", "b", "c"].length :=
  ⟨by decide, fanova_truncation_law ["a", "b", "c"] engW 2 (by decide)⟩

/-- Claim C5: in the result of a fANOVA `run()` started on a fresh
mapping, the mapping is the reported singleton entries followed by all
pair entries; the sorted singleton order is descending in total
importance with ties broken by the original hyperparameter index (the
sort is stable); and the pair entries appear in exactly the order the
engine returned them (the mapping appends them without re-sorting). -/
theorem fanova_run_order (params : List String) (engine : FanovaEngine)
    (toEval : ℤ) (nPairs : ℕ) (hnd : params.Nodup)
    (hpnd : ((engine.pairsFor
        ((odKeys (fanovaSingles params engine toEval)).take nPairs)).map
        (fun pv => pairKey pv.1.1 pv.1.2)).Nodup)
    (hpfresh : ∀ pv ∈ engine.pairsFor
        ((odKeys (fanovaSingles params engine toEval)).take nPairs),
        ∀ q ∈ params, pairKey pv.1.1 pv.1.2 ≠ q) :
    (fanovaRun params engine toEval nPairs []).1.imp =
      fanovaSingles params engine toEval ++
        (engine.pairsFor
            ((odKeys (fanovaSingles params engine toEval)).take nPairs)).map
          (fun pv => (pairKey pv.1.1 pv.1.2, pv.2)) ∧
    (fanovaSorted params engine).Pairwise rankRel ∧
    fanovaSingles params engine toEval =
      ((fanovaSorted params engine).take toEval.toNat).map
        (fun p => (params.getD p.1 "", p.2)) := by
  have hsorted : (fanovaSorted params engine).Pairwise rankRel :=
    sortDesc_pairwise _ (zip_range_pairwise (fanovaTmp params engine))
  have hsingles : fanovaSingles params engine toEval =
      ((fanovaSorted params engine).take toEval.toNat).map
        (fun p => (params.getD p.1 "", p.2)) := by
    rw [fanovaSingles_eq params engine toEval hnd]
    unfold sortKeysDesc fanovaSorted
    rw [← List.map_take, List.map_map]
    refine List.map_congr_left fun p hp => ?_
    have hpz : p ∈ (List.range (fanovaTmp params engine).length).zip
        (fanovaTmp params engine) :=
      (sortDesc_perm _).mem_iff.mp (List.take_subset _ _ hp)
    have := (mem_zip_range hpz).2
    simp only [Function.comp_apply, this]
  refine ⟨?_, hsorted, hsingles⟩
  have hrun : (fanovaRun params engine toEval nPairs []).1.imp =
      (engine.pairsFor
          ((odKeys (fanovaSingles params engine toEval)).take nPairs)).foldl
        (fun acc pv => odInsert (pairKey pv.1.1 pv.1.2) pv.2 acc)
        (fanovaSingles params engine toEval) := rfl
  rw [hrun, foldl_odInsert_entries, foldl_odInsert_fresh]
  · intro p hp
    obtain ⟨pv, hpv, rfl⟩ := List.mem_map.mp hp
    intro hmem
    exact hpfresh pv hpv _ (fanovaSingles_keys_subset hnd hmem) rfl
  · rw [List.map_map]
    exact hpnd

/-- Witness for C5 at a concrete input: three hyperparameters with
importances 3, 2, 1 and one returned pair. -/
theorem fanova_run_order_witness :
    ["a", "b", "c"].Nodup ∧
    (fanovaRun ["a", "b", "c"] engW 3 5 []).1.imp =
      fanovaSingles ["a", "b", "c"] engW 3 ++
        (engW.pairsFor
            ((odKeys (fanovaSingles ["a", "b", "c"] engW 3)).take 5)).map
          (fun pv => (pairKey pv.1.1 pv.1.2, pv.2)) :=
  ⟨by decide,
    (fanova_run_order ["a", "b", "c"] engW 3 5 (by decide) (by decide) (by decide)).1⟩

/-- Claim C6: the fANOVA pairwise query is made over the first
`min n_pairs (number of reported singletons)` reported singleton names;
under the engine's contract (returned pairs draw from the requested
names) every reported pair's two members belong to that top list, hence
to the reported singleton set; and the run appends exactly those pairs to
the mapping. -/
theorem fanova_pairs_members (params : List String) (engine : FanovaEngine)
    (toEval : ℤ) (nPairs : ℕ) (hnd : params.Nodup)
    (hpnd : ((engine.pairsFor
        ((odKeys (fanovaSingles params engine toEval)).take nPairs)).map
        (fun pv => pairKey pv.1.1 pv.1.2)).Nodup)
    (hpfresh : ∀ pv ∈ engine.pairsFor
        ((odKeys (fanovaSingles params engine toEval)).take nPairs),
        ∀ q ∈ params, pairKey pv.1.1 pv.1.2 ≠ q)
    (hcontract : ∀ pv ∈ engine.pairsFor
        ((odKeys (fanovaSingles params engine toEval)).take nPairs),
        pv.1.1 ∈ (odKeys (fanovaSingles params engine toEval)).take nPairs ∧
        pv.1.2 ∈ (odKeys (fanovaSingles params engine toEval)).take nPairs) :
    ((odKeys (fanovaSingles params engine toEval)).take nPairs).length =
      min nPairs (fanovaSingles params engine toEval).length ∧
    (fanovaRun params engine toEval nPairs []).1.imp =
      fanovaSingles params engine toEval ++
        (engine.pairsFor
            ((odKeys (fanovaSingles params engine toEval)).take nPairs)).map
          (fun pv => (pairKey pv.1.1 pv.1.2, pv.2)) ∧
    ∀ pv ∈ engine.pairsFor
        ((odKeys (fanovaSingles params engine toEval)).take nPairs),
        pv.1.1 ∈ odKeys (fanovaSingles params engine toEval) ∧
        pv.1.2 ∈ odKeys (fanovaSingles params engine toEval) := by
  refine ⟨?_, ?_, ?_⟩
  · rw [List.length_take, odKeys, List.length_map]
  · have hrun : (fanovaRun params engine toEval nPairs []).1.imp =
        (engine.pairsFor
            ((odKeys (fanovaSingles params engine toEval)).take nPairs)).foldl
          (fun acc pv => odInsert (pairKey pv.1.1 pv.1.2) pv.2 acc)
          (fanovaSingles params engine toEval) := rfl
    rw [hrun, foldl_odInsert_entries, foldl_odInsert_fresh]
    · intro p hp
      obtain ⟨pv, hpv, rfl⟩ := List.mem_map.mp hp
      intro hmem
      exact hpfresh pv hpv _ (fanovaSingles_keys_subset hnd hmem) rfl
    · rw [List.map_map]
      exact hpnd
  · intro pv hpv
    obtain ⟨h1, h2⟩ := hcontract pv hpv
    exact ⟨List.take_subset _ _ h1, List.take_subset _ _ h2⟩

/-- Witness for C6 at a concrete input. -/
theorem fanova_pairs_members_witness :
    ["a", "b", "c"].Nodup ∧
    ((odKeys (fanovaSingles ["a", "b", "c"] engW 3)).take 5).length =
      min 5 (fanovaSingles ["a", "b", "c"] engW 3).length :=
  ⟨by decide,
    (fanova_pairs_members ["a", "b", "c"] engW 3 5 (by decide) (by decide)
      (by decide) (by decide)).1⟩

/-- Claim C9: running `run()` twice with the same evaluator state and the
same (deterministic) engine answers leaves the ranked singleton portion
of the mapping identical: both the first run's final mapping and the
second run's final mapping start with exactly the ranked singleton
entries, so the ranked singleton order and every top-K set agree between
the two runs. -/
theorem fanova_run_repeat (params : List String) (engine : FanovaEngine)
    (toEval : ℤ) (nPairs : ℕ) (hnd : params.Nodup)
    (h1 : ∀ pv ∈ engine.pairsFor
        ((odKeys (fanovaSingles params engine toEval)).take nPairs),
        ∀ q ∈ params, pairKey pv.1.1 pv.1.2 ≠ q)
    (h2 : ∀ pv ∈ engine.pairsFor
        ((odKeys (fanovaRun params engine toEval nPairs []).2).take nPairs),
        ∀ q ∈ params, pairKey pv.1.1 pv.1.2 ≠ q) :
    ((fanovaRun params engine toEval nPairs []).2).take
        (fanovaSingles params engine toEval).length =
      fanovaSingles params engine toEval ∧
    ((fanovaRun params engine toEval nPairs
        ((fanovaRun params engine toEval nPairs []).2)).2).take
        (fanovaSingles params engine toEval).length =
      fanovaSingles params engine toEval := by
  have hSnodup : (odKeys (fanovaSingles params engine toEval)).Nodup :=
    fanovaSingles_keys_nodup params engine toEval hnd
  have hrun1 : (fanovaRun params engine toEval nPairs []).2 =
      (engine.pairsFor
          ((odKeys (fanovaSingles params engine toEval)).take nPairs)).foldl
        (fun acc pv => odInsert (pairKey pv.1.1 pv.1.2) pv.2 acc)
        (fanovaSingles params engine toEval) := rfl
  -- the first run's mapping starts with exactly the singleton entries
  have hprefix1 : ((fanovaRun params engine toEval nPairs []).2).take
      (fanovaSingles params engine toEval).length =
      fanovaSingles params engine toEval := by
    rw [hrun1, foldl_odInsert_entries, foldl_odInsert_take _ _ le_rfl ?_,
      List.take_length]
    intro p hp
    obtain ⟨pv, hpv, rfl⟩ := List.mem_map.mp hp
    rw [List.take_length]
    intro hmem
    exact h1 pv hpv _ (fanovaSingles_keys_subset hnd hmem) rfl
  refine ⟨hprefix1, ?_⟩
  have hlen1 : (fanovaSingles params engine toEval).length ≤
      ((fanovaRun params engine toEval nPairs []).2).length := by
    have := congrArg List.length hprefix1
    rw [List.length_take] at this
    omega
  -- the first run leaves every singleton binding in place, so the second
  -- singleton loop re-inserts identical bindings and is the identity
  have hkeys1 : (odKeys ((fanovaRun params engine toEval nPairs []).2)).Nodup := by
    rw [hrun1, foldl_odInsert_entries]
    exact foldl_odInsert_nodupKeys _ _ hSnodup
  have hsingles2 : insertSingles params (fanovaTmp params engine)
      (sortKeysDesc (fanovaTmp params engine)) toEval 0
      ((fanovaRun params engine toEval nPairs []).2) =
      (fanovaRun params engine toEval nPairs []).2 := by
    rw [insertSingles_eq_foldl]
    refine foldl_odInsert_mem _ _ hkeys1 ?_
    intro p hp
    have hz : ((toEval : ℤ) - ((0 : ℕ) : ℤ)).toNat = toEval.toNat := by norm_num
    rw [hz] at hp
    have hpS : p ∈ fanovaSingles params engine toEval := by
      rw [fanovaSingles_eq params engine toEval hnd]
      unfold sortKeysDesc
      exact hp
    rw [← hprefix1] at hpS
    exact List.take_subset _ _ hpS
  have hrun2 : (fanovaRun params engine toEval nPairs
      ((fanovaRun params engine toEval nPairs []).2)).2 =
      (engine.pairsFor
          ((odKeys (insertSingles params (fanovaTmp params engine)
            (sortKeysDesc (fanovaTmp params engine)) toEval 0
            ((fanovaRun params engine toEval nPairs []).2))).take nPairs)).foldl
        (fun acc pv => odInsert (pairKey pv.1.1 pv.1.2) pv.2 acc)
        (insertSingles params (fanovaTmp params engine)
          (sortKeysDesc (fanovaTmp params engine)) toEval 0
          ((fanovaRun params engine toEval nPairs []).2)) := rfl
  rw [hrun2, hsingles2, foldl_odInsert_entries,
    foldl_odInsert_take _ _ hlen1 ?_, hprefix1]
  intro p hp
  obtain ⟨pv, hpv, rfl⟩ := List.mem_map.mp hp
  rw [hprefix1]
  intro hmem
  exact h2 pv hpv _ (fanovaSingles_keys_subset hnd hmem) rfl

/-- Witness for C9 at a concrete input: two hyperparameters, so the
second run's pairwise query even differs from the first one's (the key
list then contains the first run's pair key), yet the ranked singleton
prefix is unchanged. -/
theorem fanova_run_repeat_witness :
    ["a", "b"].Nodup ∧
    ((fanovaRun ["a", "b"] engW 2 5
        ((fanovaRun ["a", "b"] engW 2 5 []).2)).2).take
        (fanovaSingles ["a", "b"] engW 2).length =
      fanovaSingles ["a", "b"] engW 2 :=
  ⟨by decide,
    (fanova_run_repeat ["a", "b"] engW 2 5 (by decide) (by decide) (by decide)).2⟩

/-- Claim C4: whenever the decomposition engine raises the
division-by-zero condition during `run()`, the evaluator's observable
behaviour is exactly: first the serialization of the triple
(X, y, configuration space) to the fixed filename
`fANOVA_crash_data.pkl`, then the raise of the degenerate-variance error
(the dump strictly precedes the raise in the event trace), and the raised
error is the fixed degenerate-variance value, distinct from every error
of any other kind raised by the embedded modules. -/
theorem fanova_crash_dump_precedes (params : List String) (engine : FanovaEngineE)
    (toEval : ℤ) (nPairs : ℕ) (st : OD)
    (X : List (List Val)) (y : List Val) (cs : String)
    (h : fanovaQueries params engine toEval nPairs st = Except.error ()) :
    fanovaRunE params engine toEval nPairs st X y cs =
      ([Event.dumpFile "fANOVA_crash_data.pkl" ⟨X, y, cs⟩,
        Event.raised DegenerateVarianceError], none) ∧
    (fanovaRunE params engine toEval nPairs st X y cs).1[0]? =
      some (Event.dumpFile "fANOVA_crash_data.pkl" ⟨X, y, cs⟩) ∧
    (fanovaRunE params engine toEval nPairs st X y cs).1[1]? =
      some (Event.raised DegenerateVarianceError) ∧
    (∀ m, DegenerateVarianceError ≠ PyError.valueError m) ∧
    (∀ m, DegenerateVarianceError ≠ PyError.fileNotFound m) := by
  have hE : fanovaRunE params engine toEval nPairs st X y cs =
      ([Event.dumpFile "fANOVA_crash_data.pkl" ⟨X, y, cs⟩,
        Event.raised DegenerateVarianceError], none) := by
    unfold fanovaRunE
    rw [h]
  refine ⟨hE, ?_, ?_, ?_, ?_⟩
  · rw [hE]
    rfl
  · rw [hE]
    rfl
  · intro m hm
    cases hm
  · intro m hm
    cases hm

/-- Witness for C4: a degenerate engine (every query raises), one
hyperparameter. -/
theorem fanova_crash_dump_precedes_witness :
    fanovaQueries ["a"] engCrash 1 5 [] = Except.error () ∧
    fanovaRunE ["a"] engCrash 1 5 [] [[1]] [1] "cs" =
      ([Event.dumpFile "fANOVA_crash_data.pkl" ⟨[[1]], [1], "cs"⟩,
        Event.raised DegenerateVarianceError], none) :=
  ⟨rfl, (fanova_crash_dump_precedes ["a"] engCrash 1 5 [] [[1]] [1] "cs" rfl).1⟩

/-- The two Python lists of `_preprocess` always hold the same array
references, because each loop iteration appends the same array object to
both. -/
theorem preprocessLoop_aliased (cs : List Hyperparam) (configs : List (List Val)) :
    (preprocessLoop cs configs).xPrime = (preprocessLoop cs configs).xNonHyper := by
  unfold preprocessLoop
  suffices h : ∀ (s : PreState), s.xPrime = s.xNonHyper →
      (configs.foldl (fun s cfg =>
        let addr := s.store.length
        let store1 := s.store ++ [cfg]
        let store2 := store1.set addr (transformRow cs (store1.getD addr []))
        ⟨store2, s.xPrime ++ [addr], s.xNonHyper ++ [addr]⟩) s).xPrime =
      (configs.foldl (fun s cfg =>
        let addr := s.store.length
        let store1 := s.store ++ [cfg]
        let store2 := store1.set addr (transformRow cs (store1.getD addr []))
        ⟨store2, s.xPrime ++ [addr], s.xNonHyper ++ [addr]⟩) s).xNonHyper by
    exact h ⟨[], [], []⟩ rfl
  induction configs with
  | nil => intro s hs; exact hs
  | cons c t ih =>
    intro s hs
    simp only [List.foldl_cons]
    exact ih _ (by simp [hs])

/-- Claim C2 (the code evaluated at a failing input): one continuous
hyperparameter with a non-identity transform and one configuration whose
un-transformed (inactive-imputed) encoding is `[0]`.  Because the loop
appends the same array object to both lists and then transforms it in
place, the code's `X_prime` equals the transformed matrix `[[5]]` — not
the un-transformed encoding `[[0]]` the claim requires — and `y_prime` is
the surrogate's prediction on the transformed matrix. -/
theorem preprocess_aliasing_bug :
    preprocess csW [[0]] (fun rows => rows.map (fun r => r.getD 0 0)) =
      { Xnh := [[5]], Xp := [[5]], yPrime := [5] } ∧
    ([[(5 : Val)]] : List (List Val)) ≠ [[0]] ∧
    (fun (rows : List (List Val)) => rows.map (fun r => r.getD 0 0)) [[0]] = [0] ∧
    (preprocess csW [[0]] (fun rows => rows.map (fun r => r.getD 0 0))).Xp =
      (preprocess csW [[0]] (fun rows => rows.map (fun r => r.getD 0 0))).Xnh := by
  refine ⟨by decide, by decide, rfl, ?_⟩
  unfold preprocess
  simp only [preprocessLoop_aliased]

/-- Claim C3 (the code evaluated at a failing input): the downsampled
subset is a function of the module-global generator state alone — for any
fixed global state the result is independent of the constructor's seed,
and two constructions with the SAME seed but different global states
(here: identity shuffle vs reversing shuffle, two data points, sample
size one) select different subsets.  The two-run same-seed determinism
property of the claim therefore fails on the code. -/
theorem downsample_ignores_seed :
    (∀ (g : GlobalNpRandom) (s1 s2 : ℕ) (X : List (List Val)) (y : List Val)
        (m : ℤ), downsample g s1 X y m = downsample g s2 X y m) ∧
    downsample gIdent 12345 [[0], [1]] [0, 1] 1 ≠
      downsample gRev 12345 [[0], [1]] [0, 1] 1 := by
  exact ⟨fun g s1 s2 X y m => rfl, by decide⟩

/-- Unrolling the accumulating fold of `evaluate_scenario('all', ...)`. -/
theorem evaluateScenarioAll_foldl (runOf : EvalMethod → OD) :
    ∀ (l : List EvalMethod) (a : List (EvalMethod × OD)) (b : List EvalMethod),
      l.foldl (fun acc m => (acc.1 ++ [(m, runOf m)], acc.2 ++ [m])) (a, b) =
        (a ++ l.map (fun m => (m, runOf m)), b ++ l)
  | [], a, b => by simp
  | m :: t, a, b => by
    simp only [List.foldl_cons, List.map_cons]
    rw [evaluateScenarioAll_foldl runOf t (a ++ [(m, runOf m)]) (b ++ [m])]
    simp

/-- Claim C7: for every `order_hint` in `{0..5}`, `evaluate('all',
order_hint)` runs the four methods in a permutation of
{ablation, fanova, forward-selection, incneighbor} that is distinct for
distinct hints; hint 2 yields [fanova, forward-selection, ablation,
incneighbor]; and the call returns the per-method mapping list together
with the evaluator instances in execution order. -/
theorem evaluate_scenario_all_orders (h : ℤ) (h0 : 0 ≤ h) (h6 : h < 6)
    (runOf : EvalMethod → OD) :
    (methodsOrder h).Perm allMethods ∧
    (∀ h2 : ℤ, 0 ≤ h2 → h2 < 6 → h ≠ h2 → methodsOrder h ≠ methodsOrder h2) ∧
    methodsOrder 2 =
      [EvalMethod.fanova, EvalMethod.forwardSelection, EvalMethod.ablation,
        EvalMethod.incneighbor] ∧
    evaluateScenarioAll h runOf =
      ((methodsOrder h).map (fun m => (m, runOf m)), methodsOrder h) := by
  refine ⟨?_, ?_, by decide, ?_⟩
  · interval_cases h <;> decide
  · intro h2 hh0 hh6 hne
    interval_cases h <;> interval_cases h2 <;>
      first
      | exact absurd rfl hne
      | decide
  · unfold evaluateScenarioAll
    rw [evaluateScenarioAll_foldl]
    simp

/-- Witness for C7 at `order_hint = 2`. -/
theorem evaluate_scenario_all_orders_witness :
    (0 : ℤ) ≤ 2 ∧ (2 : ℤ) < 6 ∧
    evaluateScenarioAll 2 (fun _ => ([] : OD)) =
      ((methodsOrder 2).map (fun m => (m, ([] : OD))), methodsOrder 2) :=
  ⟨by decide, by decide,
    (evaluate_scenario_all_orders 2 (by decide) (by decide) (fun _ => ([] : OD))).2.2.2⟩

/-- Claim C8: when the tuning objective is a plain scalar (not
"runtime"), `_convert_data` selects the non-logarithmic transformer and
passes it no imputation states at all (`impute_state = None`) and no
imputor, so (under the transformer's contract) no record is
censored-imputed, whether the impute flag was set to true or to false. -/
theorem convert_data_plain_scalar (runObj : String) (impute : Bool)
    (h : runObj ≠ "runtime") :
    (convertDataArgs runObj impute).logCost = false ∧
    (convertDataArgs runObj impute).imputeState = none ∧
    (convertDataArgs runObj impute).hasImputor = false ∧
    ∀ records : List RHRecord,
      imputedRecords (convertDataArgs runObj true) records = [] ∧
      imputedRecords (convertDataArgs runObj false) records = [] := by
  simp [convertDataArgs, imputedRecords, h]

/-- Witness for C8 at the concrete objective "quality". -/
theorem convert_data_plain_scalar_witness :
    ("quality" : String) ≠ "runtime" ∧
    (convertDataArgs "quality" true).logCost = false ∧
    (convertDataArgs "quality" true).imputeState = none :=
  ⟨by decide, (convert_data_plain_scalar "quality" true (by decide)).1,
    (convert_data_plain_scalar "quality" true (by decide)).2.1⟩

/-- The evaluator list threaded through the table-building pass. -/
theorem table_foldl_snd (n : ℕ) :
    ∀ (l : List (ℕ × Evaluator)) (a : Body) (b : List Evaluator),
      (l.foldl (fun acc ei => (processEval n acc.1 ei.1 ei.2, acc.2 ++ [ei.2]))
        (a, b)).2 = b ++ l.map Prod.snd
  | [], _, _ => by simp
  | e :: t, a, b => by
    simp only [List.foldl_cons, List.map_cons]
    rw [table_foldl_snd n t _ (b ++ [e.2])]
    simp

/-- Claim C10: building the comparison table leaves every evaluator's
returned Importance Mapping unchanged — the evaluator list comes out of
the pass exactly as it went in — even though the table body displays
Ablation and fANOVA values scaled by 100 (shown at a concrete fANOVA
evaluator whose reported value 1/2 appears in the table as 50 while its
mapping still holds 1/2). -/
theorem table_for_comparison_frame (evaluators : List Evaluator) :
    (tableForComparison evaluators).2 = evaluators ∧
    tableForComparison [fanovaEvalW] =
      ([("a", [some 50])], [fanovaEvalW]) ∧
    fanovaEvalW.evaluated_parameter_importance = [("a", 1 / 2)] := by
  refine ⟨?_, ?_, rfl⟩
  · unfold tableForComparison
    rw [table_foldl_snd]
    rw [List.nil_append, List.enum_map_snd]
  · unfold tableForComparison processEval bodySet bodyScale fanovaEvalW
    norm_num [odKeys, List.enum, List.replicate]
    decide

end Pimp
